import Mathlib

/-!
Verification of the parseconfig schema-migration planner.

The development embeds the planner (src/planner.js), the reconciliation
facade (src/actions.js) and the data model they operate on as Lean
definitions, and proves or refutes the specified properties about them.
JavaScript structured values are modelled by the inductive type JsVal;
JavaScript objects are modelled as insertion-ordered association lists
whose keys are unique (object literals and JSON-parsed values cannot
carry duplicate keys).
-/

namespace ParseConfig

/-- Model of a JavaScript structured (JSON-able) value: undefined, null,
booleans, numbers (the schemas in this repository only use integral
numbers, e.g. sort directions), strings, arrays, and objects as
insertion-ordered key-value lists. -/
inductive JsVal where
  | undef : JsVal
  | null : JsVal
  | bool (b : Bool) : JsVal
  | num (n : Int) : JsVal
  | str (s : String) : JsVal
  | arr (xs : List JsVal) : JsVal
  | obj (fields : List (String × JsVal)) : JsVal

/-- Tests whether a value is the JavaScript undefined value. -/
def isUndef : JsVal → Bool
  | .undef => true
  | _ => false

/-- Escape of a string character as performed by JSON.stringify. The model
covers the quote, backslash and the common control characters; schema
strings (class names, field names, URLs) contain none of the rarer
control characters that stringify encodes as unicode escapes. -/
def jsonEscapeChar (c : Char) : String :=
  if c = '"' then "\\\""
  else if c = '\\' then "\\\\"
  else if c = '\n' then "\\n"
  else if c = '\t' then "\\t"
  else if c = '\r' then "\\r"
  else String.singleton c

/-- Quoted, escaped rendering of a string, as JSON.stringify renders it. -/
def jsonQuote (s : String) : String :=
  "\"" ++ String.join (s.toList.map jsonEscapeChar) ++ "\""

/-- Comma-separated concatenation of rendered object members. -/
def commaJoin : List String → String
  | [] => ""
  | [x] => x
  | x :: y :: xs => x ++ "," ++ commaJoin (y :: xs)

mutual

/-- Model of JSON.stringify: none models the undefined result (stringify of
undefined); object properties whose value stringifies to undefined are
omitted; array entries that stringify to undefined are rendered null.
Key order is preserved: stringify is order-DEPENDENT on object keys. -/
def stringifyVal : JsVal → Option String
  | .undef => none
  | .null => some "null"
  | .bool b => some (if b then "true" else "false")
  | .num n => some (toString n)
  | .str s => some (jsonQuote s)
  | .arr xs => some ("[" ++ stringifyArr xs ++ "]")
  | .obj fs => some ("\x7b" ++ commaJoin (stringifyObj fs) ++ "\x7d")

/-- Comma-separated rendering of the elements of a JSON array. -/
def stringifyArr : List JsVal → String
  | [] => ""
  | [x] => (stringifyVal x).getD "null"
  | x :: y :: xs => (stringifyVal x).getD "null" ++ "," ++ stringifyArr (y :: xs)

/-- Rendered key:value members of a JSON object, with undefined-valued
properties omitted. -/
def stringifyObj : List (String × JsVal) → List String
  | [] => []
  | (k, v) :: fs =>
    match stringifyVal v with
    | none => stringifyObj fs
    | some sv => (jsonQuote k ++ ":" ++ sv) :: stringifyObj fs

end

/-- Embedding of deepEquals (planner.js lines 34-39): if either argument is
undefined the values are equal exactly when both are (the === test);
otherwise the JSON.stringify renderings are compared. -/
def deepEquals (a b : JsVal) : Bool :=
  if isUndef a || isUndef b then isUndef a && isUndef b
  else stringifyVal a == stringifyVal b

theorem deepEquals_self (a : JsVal) : deepEquals a a = true := by
  cases h : isUndef a <;> simp [deepEquals, h]

/-- Lookup in a JavaScript Map built by new Map(list): on duplicate keys the
LAST entry wins, so the model searches the reversed entry list. -/
def jsMapGet {α : Type} (l : List (String × α)) (k : String) : Option α :=
  (l.reverse.find? (fun p => p.1 == k)).map (fun p => p.2)

/-- Property access obj[k] on a JavaScript object modelled as an association
list: the result is the stored value, or undefined when the key is absent.
Keys of a JavaScript object are unique, so first match suffices. -/
def objIdx (l : List (String × JsVal)) (k : String) : JsVal :=
  (((l.find? (fun p => p.1 == k)).map (fun p => p.2)).getD .undef)

/-- Embedding of a CollectionDefinition (src/schema): the indexes map is
optional (absent models the undefined property), classLevelPermissions is
an arbitrary structured value. -/
structure CollectionDefinition where
  className : String
  fields : List (String × JsVal)
  indexes : Option (List (String × JsVal))
  classLevelPermissions : JsVal

/-- Embedding of a FunctionDefinition. -/
structure FunctionDefinition where
  functionName : String
  url : String
deriving DecidableEq

/-- Embedding of a TriggerDefinition. -/
structure TriggerDefinition where
  className : String
  triggerName : String
  url : String
deriving DecidableEq

/-- Embedding of a Schema: desired and observed schemas share this shape. -/
structure Schema where
  collections : List CollectionDefinition
  functions : List FunctionDefinition
  triggers : List TriggerDefinition

/-- Modelled from the spec: command.js is not under src/, so the Command
variant set follows section 3 of the spec, which lists one constructor per
operation with exactly the payload each call site in planner.js supplies.
UpdateCollectionPermissions is declared with (className, newPerms,
oldPerms) as the spec states; the call site in planner.js passes only two
arguments, so in the embedding of that call the oldPerms slot receives the
JavaScript undefined value. -/
inductive Command where
  | AddCollection (definition : CollectionDefinition) : Command
  | DeleteCollection (className : String) : Command
  | UpdateCollectionPermissions (className : String) (newPerms oldPerms : JsVal) : Command
  | AddColumn (className name : String) (definition : JsVal) : Command
  | UpdateColumn (className name : String) (definition : JsVal) : Command
  | DeleteColumn (className name : String) : Command
  | AddIndex (className name : String) (definition : JsVal) : Command
  | UpdateIndex (className name : String) (definition : JsVal) : Command
  | DeleteIndex (className name : String) : Command
  | AddFunction (definition : FunctionDefinition) : Command
  | UpdateFunction (definition : FunctionDefinition) : Command
  | DeleteFunction (functionName : String) : Command
  | AddTrigger (definition : TriggerDefinition) : Command
  | UpdateTrigger (definition : TriggerDefinition) : Command
  | DeleteTrigger (className triggerName : String) : Command

/-- Modelled from the spec: each command variant carries a distinct type tag
(command.js is not under src/); the facade compares tags with !==, which
only requires the tags of distinct variants to be distinct strings. -/
def Command.ctype : Command → String
  | .AddCollection _ => "AddCollection"
  | .DeleteCollection _ => "DeleteCollection"
  | .UpdateCollectionPermissions _ _ _ => "UpdateCollectionPermissions"
  | .AddColumn _ _ _ => "AddColumn"
  | .UpdateColumn _ _ _ => "UpdateColumn"
  | .DeleteColumn _ _ => "DeleteColumn"
  | .AddIndex _ _ _ => "AddIndex"
  | .UpdateIndex _ _ _ => "UpdateIndex"
  | .DeleteIndex _ _ => "DeleteIndex"
  | .AddFunction _ => "AddFunction"
  | .UpdateFunction _ => "UpdateFunction"
  | .DeleteFunction _ => "DeleteFunction"
  | .AddTrigger _ => "AddTrigger"
  | .UpdateTrigger _ => "UpdateTrigger"
  | .DeleteTrigger _ _ => "DeleteTrigger"

/-- Tag test: AddCollection. -/
def Command.isAddCollection : Command → Bool
  | .AddCollection _ => true
  | _ => false

/-- Tag test: DeleteCollection. -/
def Command.isDeleteCollection : Command → Bool
  | .DeleteCollection _ => true
  | _ => false

/-- Tag test: UpdateCollectionPermissions. -/
def Command.isUpdateCollectionPermissions : Command → Bool
  | .UpdateCollectionPermissions _ _ _ => true
  | _ => false

/-- Tag test: AddColumn. -/
def Command.isAddColumn : Command → Bool
  | .AddColumn _ _ _ => true
  | _ => false

/-- Tag test: UpdateColumn. -/
def Command.isUpdateColumn : Command → Bool
  | .UpdateColumn _ _ _ => true
  | _ => false

/-- Tag test: DeleteColumn. -/
def Command.isDeleteColumn : Command → Bool
  | .DeleteColumn _ _ => true
  | _ => false

/-- Tag test: AddIndex. -/
def Command.isAddIndex : Command → Bool
  | .AddIndex _ _ _ => true
  | _ => false

/-- Tag test: UpdateIndex. -/
def Command.isUpdateIndex : Command → Bool
  | .UpdateIndex _ _ _ => true
  | _ => false

/-- Tag test: DeleteIndex. -/
def Command.isDeleteIndex : Command → Bool
  | .DeleteIndex _ _ => true
  | _ => false

/-- Entry list for the class-name map new Map (schema.map (c maps to
[c.className, c])) built at the top of planCollections. -/
def colEntries (l : List CollectionDefinition) : List (String × CollectionDefinition) :=
  l.map (fun c => (c.className, c))

/-- Embedding of the newCollections block of planCollections (planner.js
lines 67-76): every desired collection absent from the observed map yields
an AddCollection. -/
def newCollectionsOf (ns os : List CollectionDefinition) : List Command :=
  ns.filterMap (fun c =>
    if (jsMapGet (colEntries os) c.className).isSome then none
    else some (.AddCollection c))

/-- Embedding of the deletedCollections block (planner.js lines 77-86). -/
def deletedCollectionsOf (ns os : List CollectionDefinition) : List Command :=
  os.filterMap (fun c =>
    if (jsMapGet (colEntries ns) c.className).isSome then none
    else some (.DeleteCollection c.className))

/-- Loop body of the updatedPermissions block (planner.js lines 90-99): for
a collection present in both schemas, a deepEquals mismatch of
classLevelPermissions yields UpdateCollectionPermissions; the call site
passes only className and the new permissions, so the oldPerms slot of the
spec-modelled constructor is undefined. -/
def permCommand (os : List CollectionDefinition) (c : CollectionDefinition) : Option Command :=
  match jsMapGet (colEntries os) c.className with
  | none => none
  | some old =>
    if deepEquals c.classLevelPermissions old.classLevelPermissions then none
    else some (.UpdateCollectionPermissions c.className c.classLevelPermissions .undef)

/-- Embedding of the updatedPermissions block (planner.js lines 87-102). -/
def updatedPermissionsOf (ns os : List CollectionDefinition) : List Command :=
  ns.filterMap (permCommand os)

/-- Embedding of the newColumns block (planner.js lines 103-122): for
collections present in both, each desired field absent from the observed
collection yields AddColumn, and a deepEquals mismatch yields
UpdateColumn. -/
def newColumnsOf (ns os : List CollectionDefinition) : List Command :=
  (ns.map (fun c =>
    match jsMapGet (colEntries os) c.className with
    | none => []
    | some old =>
      c.fields.filterMap (fun p =>
        let newField := objIdx c.fields p.1
        let oldField := objIdx old.fields p.1
        if isUndef oldField then some (.AddColumn c.className p.1 newField)
        else if deepEquals oldField newField then none
        else some (.UpdateColumn c.className p.1 newField)))).flatten

/-- Embedding of the deletedColumns block (planner.js lines 124-141). -/
def deletedColumnsOf (ns os : List CollectionDefinition) : List Command :=
  (os.map (fun c =>
    match jsMapGet (colEntries ns) c.className with
    | none => []
    | some newC =>
      c.fields.filterMap (fun p =>
        if isUndef (objIdx newC.fields p.1) then some (.DeleteColumn c.className p.1)
        else none))).flatten

/-- Embedding of the newIndexes block (planner.js lines 142-161); an absent
indexes property defaults to the empty object. -/
def newIndexesOf (ns os : List CollectionDefinition) : List Command :=
  (ns.map (fun c =>
    match jsMapGet (colEntries os) c.className with
    | none => []
    | some old =>
      let indexes := c.indexes.getD []
      indexes.filterMap (fun p =>
        let newIndex := objIdx indexes p.1
        let oldIndex := objIdx (old.indexes.getD []) p.1
        if isUndef oldIndex then some (.AddIndex c.className p.1 newIndex)
        else if deepEquals oldIndex newIndex then none
        else some (.UpdateIndex c.className p.1 newIndex)))).flatten

/-- Embedding of the deletedIndexes block (planner.js lines 163-183): an
observed index absent from the desired collection yields DeleteIndex,
except that with ignorePrivateIndexes set, index names starting with an
underscore are skipped. -/
def deletedIndexesOf (ns os : List CollectionDefinition) (ipi : Bool) : List Command :=
  (os.map (fun c =>
    match jsMapGet (colEntries ns) c.className with
    | none => []
    | some newC =>
      (c.indexes.getD []).filterMap (fun p =>
        if ipi && p.1.startsWith "_" then none
        else if isUndef (objIdx (newC.indexes.getD []) p.1) then
          some (.DeleteIndex c.className p.1)
        else none))).flatten

/-- Embedding of planCollections (planner.js lines 57-195): the seven blocks
concatenated in the order fixed at lines 187-194. -/
def planCollections (ns os : List CollectionDefinition) (ipi : Bool) : List Command :=
  newCollectionsOf ns os ++ deletedCollectionsOf ns os ++ updatedPermissionsOf ns os
    ++ deletedIndexesOf ns os ipi ++ deletedColumnsOf ns os ++ newColumnsOf ns os
    ++ newIndexesOf ns os

/-- JavaScript truthiness of the optional hookUrl string: null, undefined
and the empty string are falsy. -/
def strTruthy : Option String → Bool
  | some s => s != ""
  | none => false

/-- Embedding of the hook-URL rewrite applied to a copied function entry
(planner.js lines 208-211): when hookUrl is truthy the copied entry's url
becomes hookUrl + url. -/
def applyHookF (hookUrl : Option String) (f : FunctionDefinition) : FunctionDefinition :=
  if strTruthy hookUrl then { f with url := hookUrl.getD "" ++ f.url } else f

/-- Entry list for the function-name map of planFunctions. -/
def funcEntries (l : List FunctionDefinition) : List (String × FunctionDefinition) :=
  l.map (fun f => (f.functionName, f))

/-- Embedding of the newFunctions block (planner.js lines 205-220). -/
def newFunctionsOf (ns os : List FunctionDefinition) (hookUrl : Option String) : List Command :=
  ns.filterMap (fun f =>
    let af := applyHookF hookUrl f
    match jsMapGet (funcEntries os) af.functionName with
    | none => some (.AddFunction af)
    | some oldF => if oldF.url != af.url then some (.UpdateFunction af) else none)

/-- Embedding of the deletedFunctions block (planner.js lines 221-230). -/
def deletedFunctionsOf (ns os : List FunctionDefinition) : List Command :=
  os.filterMap (fun f =>
    if (jsMapGet (funcEntries ns) f.functionName).isSome then none
    else some (.DeleteFunction f.functionName))

/-- Embedding of planFunctions (planner.js lines 197-233): deletions are
returned before additions and updates. -/
def planFunctions (ns os : List FunctionDefinition) (hookUrl : Option String) : List Command :=
  deletedFunctionsOf ns os ++ newFunctionsOf ns os hookUrl

/-- Embedding of triggerKey (planner.js line 241): the identity of a trigger
is the single string triggerName-className. -/
def triggerKey (t : TriggerDefinition) : String :=
  t.triggerName ++ "-" ++ t.className

/-- Entry list for the trigger-key map of planTriggers. -/
def trigEntries (l : List TriggerDefinition) : List (String × TriggerDefinition) :=
  l.map (fun t => (triggerKey t, t))

/-- Embedding of the hook-URL rewrite applied to a copied trigger entry
(planner.js lines 249-252). -/
def applyHookT (hookUrl : Option String) (t : TriggerDefinition) : TriggerDefinition :=
  if strTruthy hookUrl then { t with url := hookUrl.getD "" ++ t.url } else t

/-- Embedding of the newTriggers block (planner.js lines 246-261). -/
def newTriggersOf (ns os : List TriggerDefinition) (hookUrl : Option String) : List Command :=
  ns.filterMap (fun t =>
    let ta := applyHookT hookUrl t
    match jsMapGet (trigEntries os) (triggerKey ta) with
    | none => some (.AddTrigger ta)
    | some oldT => if oldT.url != ta.url then some (.UpdateTrigger ta) else none)

/-- Embedding of the deletedTriggers block (planner.js lines 262-271). -/
def deletedTriggersOf (ns os : List TriggerDefinition) : List Command :=
  os.filterMap (fun t =>
    if (jsMapGet (trigEntries ns) (triggerKey t)).isSome then none
    else some (.DeleteTrigger t.className t.triggerName))

/-- Embedding of planTriggers (planner.js lines 236-274). -/
def planTriggers (ns os : List TriggerDefinition) (hookUrl : Option String) : List Command :=
  deletedTriggersOf ns os ++ newTriggersOf ns os hookUrl

/-- Embedding of plan (planner.js lines 41-55): collection commands,
then function commands, then trigger commands; ignorePrivateIndexes
defaults to false in the source and is passed explicitly here. -/
def plan (newSchema oldSchema : Schema) (hookUrl : Option String) (ipi : Bool) : List Command :=
  planCollections newSchema.collections oldSchema.collections ipi
    ++ planFunctions newSchema.functions oldSchema.functions hookUrl
    ++ planTriggers newSchema.triggers oldSchema.triggers hookUrl

/-- Embedding of the recognized option fields of the facade (actions.js
lines 27-34); applicationId and key only parameterize the transport and
play no role in planning. -/
structure Options where
  hookUrl : Option String
  ignoreIndexes : Bool
  disallowColumnRedefine : Bool
  disallowIndexRedefine : Bool

/-- Filter predicate of the ignoreIndexes branch (actions.js lines 53-57):
keep a command when its type differs from all three index command tags. -/
def keepNonIndex (c : Command) : Bool :=
  c.ctype != "AddIndex" && c.ctype != "UpdateIndex" && c.ctype != "DeleteIndex"

/-- Embedding of the in-place mutation of actions.js lines 58-62 as applied
to a command value: an AddCollection command has its definition's indexes
replaced by the empty object; other commands are untouched. -/
def stripAddCollectionIndexes : Command → Command
  | .AddCollection d => .AddCollection { d with indexes := some [] }
  | c => c

/-- Guard predicate of the disallowColumnRedefine scan (actions.js lines
65-69), kept literally as written in the source: the command type differs
from UpdateColumn OR differs from DeleteColumn. -/
def columnGuardHit (c : Command) : Bool :=
  c.ctype != "UpdateColumn" || c.ctype != "DeleteColumn"

/-- Guard predicate of the disallowIndexRedefine scan (actions.js lines
73-77), kept literally as written in the source. -/
def indexGuardHit (c : Command) : Bool :=
  c.ctype != "UpdateIndex" || c.ctype != "DeleteIndex"

/-- Embedding of the command-list processing of getPlan (actions.js lines
51-80): plan, the optional ignoreIndexes filter and strip, then the two
disallow guards, each of which throws DisallowedCommandError(c) at the
first command its predicate accepts. Schema verification and the network
fetch that precede this processing live in collaborators (verifier.js and
the transport) and are outside this embedding; the error value is the
command carried by the DisallowedCommandError. -/
def getPlanCommands (newSchema oldSchema : Schema) (opts : Options) :
    Except Command (List Command) :=
  let cs0 := plan newSchema oldSchema opts.hookUrl false
  let cs := if opts.ignoreIndexes then
      (cs0.filter keepNonIndex).map stripAddCollectionIndexes
    else cs0
  match (if opts.disallowColumnRedefine then cs.find? columnGuardHit else none) with
  | some c => .error c
  | none =>
    match (if opts.disallowIndexRedefine then cs.find? indexGuardHit else none) with
    | some c => .error c
    | none => .ok cs

/-- Model of the desired schema object as it stands after getPlan returns
(or throws): the definition carried by each AddCollection command aliases
the corresponding collection object of the caller's desired schema, so the
in-place assignment c.definition.indexes = \x7b\x7d of actions.js lines
58-62 updates the desired schema itself. AddCollection commands exist
exactly for the desired collections absent from the observed map, and none
of them is removed by the index filter, so with ignoreIndexes set exactly
those collections end up with an empty indexes object. -/
def getPlanPostDesired (newSchema oldSchema : Schema) (opts : Options) : Schema :=
  if opts.ignoreIndexes then
    { newSchema with collections := newSchema.collections.map (fun c =>
        if (jsMapGet (colEntries oldSchema.collections) c.className).isSome then c
        else { c with indexes := some [] }) }
  else newSchema

/-- Result of getPlan together with the post-call states of the two schema
values: the second component is the caller's desired schema after the
call, the third the observed schema after the call (no statement of
getPlan or of the planner assigns into the observed schema, and the
planner copies function and trigger entries before rewriting them). -/
def getPlanEffect (newSchema oldSchema : Schema) (opts : Options) :
    Except Command (List Command) × Schema × Schema :=
  (getPlanCommands newSchema oldSchema opts,
   getPlanPostDesired newSchema oldSchema opts,
   oldSchema)

/-- Errors surfaced by the check facade: a guard rejection propagated from
getPlan, or drift. InvalidSchemaError and RemoteFetchError arise in the
collaborators outside this embedding. -/
inductive CheckError where
  | disallowedCommand (c : Command) : CheckError
  | outOfSync (commands : List Command) : CheckError

/-- Embedding of check (actions.js lines 83-95): an empty plan is success,
a non-empty plan raises OutOfSyncError carrying the full command list. -/
def check (newSchema oldSchema : Schema) (opts : Options) : Except CheckError Unit :=
  match getPlanCommands newSchema oldSchema opts with
  | .error c => .error (.disallowedCommand c)
  | .ok commands =>
    if commands.length == 0 then .ok ()
    else .error (.outOfSync commands)

/-- Result of check together with the post-call remote state, modelled as
the observed schema: check only reads the remote (the three GET fetches of
getLiveSchema) and never hands commands to the executor. -/
def checkEffect (newSchema observed : Schema) (opts : Options) :
    Except CheckError Unit × Schema :=
  (check newSchema observed opts, observed)

/-- Well-formedness of a JavaScript object modelled as an association list:
keys are unique (object literals and JSON-parsed objects cannot repeat a
key) and no stored value is the undefined value (JSON has none). -/
def wfObj (l : List (String × JsVal)) : Prop :=
  (l.map Prod.fst).Nodup ∧ ∀ p ∈ l, isUndef p.2 = false

instance (l : List (String × JsVal)) : Decidable (wfObj l) := by
  unfold wfObj; infer_instance

/-- Modelled from the spec: verifier.js is not under src/. Validity of a
desired schema captures the verifier rules of spec section 4.1 — no
duplicate class, function, or trigger identity keys, where trigger
identity is the PAIR (triggerName, className) per spec section 3 —
together with the representation invariants of the JavaScript objects the
schema carries (unique keys, no undefined members). -/
def validSchema (s : Schema) : Prop :=
  (s.collections.map (fun c => c.className)).Nodup
    ∧ (s.functions.map (fun f => f.functionName)).Nodup
    ∧ (s.triggers.map (fun t => (t.triggerName, t.className))).Nodup
    ∧ ∀ c ∈ s.collections, wfObj c.fields ∧ wfObj (c.indexes.getD [])

instance (s : Schema) : Decidable (validSchema s) := by
  unfold validSchema; infer_instance

theorem assocFind {α : Type} (l : List (String × α)) (k : String) (v : α)
    (hnd : (l.map Prod.fst).Nodup) (hm : (k, v) ∈ l) :
    l.find? (fun p => p.1 == k) = some (k, v) := by
  induction l with
  | nil => cases hm
  | cons hd t ih =>
    cases hm with
    | head => simp [List.find?_cons]
    | tail _ hm =>
      have hk : hd.1 ≠ k := by
        intro e
        have : hd.1 ∈ t.map Prod.fst := by
          rw [e]; exact List.mem_map.mpr ⟨(k, v), hm, rfl⟩
        exact (List.nodup_cons.mp (by simpa using hnd)).1 this
      have hp : (hd.1 == k) = false := by simp [hk]
      simp only [List.find?_cons, hp]
      exact ih (by simpa using (List.nodup_cons.mp (by simpa using hnd)).2) hm

theorem jsMapGet_eq {α : Type} (l : List (String × α)) (k : String) (v : α)
    (hnd : (l.map Prod.fst).Nodup) (hm : (k, v) ∈ l) :
    jsMapGet l k = some v := by
  unfold jsMapGet
  rw [assocFind l.reverse k v (by rw [List.map_reverse]; exact List.nodup_reverse.mpr hnd)
    (List.mem_reverse.mpr hm)]
  rfl

theorem jsMapGet_isSome_of_mem {α : Type} (l : List (String × α)) (k : String) (v : α)
    (hm : (k, v) ∈ l) : (jsMapGet l k).isSome = true := by
  have h1 : (l.reverse.find? (fun p => p.1 == k)).isSome :=
    List.find?_isSome.mpr ⟨(k, v), List.mem_reverse.mpr hm, by simp⟩
  unfold jsMapGet
  obtain ⟨p, hp⟩ := Option.isSome_iff_exists.mp h1
  rw [hp]
  rfl

theorem objIdx_eq (l : List (String × JsVal)) (k : String) (v : JsVal)
    (hnd : (l.map Prod.fst).Nodup) (hm : (k, v) ∈ l) : objIdx l k = v := by
  unfold objIdx
  rw [assocFind l k v hnd hm]
  rfl

theorem mem_newCollectionsOf {c : Command} {ns os : List CollectionDefinition}
    (h : c ∈ newCollectionsOf ns os) : c.isAddCollection = true := by
  unfold newCollectionsOf at h
  rw [List.mem_filterMap] at h
  obtain ⟨b, _, hf⟩ := h
  split at hf
  · cases hf
  · cases hf; rfl

theorem mem_deletedCollectionsOf {c : Command} {ns os : List CollectionDefinition}
    (h : c ∈ deletedCollectionsOf ns os) : c.isDeleteCollection = true := by
  unfold deletedCollectionsOf at h
  rw [List.mem_filterMap] at h
  obtain ⟨b, _, hf⟩ := h
  split at hf
  · cases hf
  · cases hf; rfl

theorem mem_updatedPermissionsOf {c : Command} {ns os : List CollectionDefinition}
    (h : c ∈ updatedPermissionsOf ns os) : c.isUpdateCollectionPermissions = true := by
  unfold updatedPermissionsOf permCommand at h
  rw [List.mem_filterMap] at h
  obtain ⟨b, _, hf⟩ := h
  split at hf
  · cases hf
  · split at hf
    · cases hf
    · cases hf; rfl

theorem mem_deletedIndexesOf {c : Command} {ns os : List CollectionDefinition} {ipi : Bool}
    (h : c ∈ deletedIndexesOf ns os ipi) : c.isDeleteIndex = true := by
  unfold deletedIndexesOf at h
  rw [List.mem_flatten] at h
  obtain ⟨l, hl, hcl⟩ := h
  rw [List.mem_map] at hl
  obtain ⟨b, _, rfl⟩ := hl
  split at hcl
  · cases hcl
  · rw [List.mem_filterMap] at hcl
    obtain ⟨p, _, hf⟩ := hcl
    split at hf
    · cases hf
    · split at hf
      · cases hf; rfl
      · cases hf

theorem mem_deletedColumnsOf {c : Command} {ns os : List CollectionDefinition}
    (h : c ∈ deletedColumnsOf ns os) : c.isDeleteColumn = true := by
  unfold deletedColumnsOf at h
  rw [List.mem_flatten] at h
  obtain ⟨l, hl, hcl⟩ := h
  rw [List.mem_map] at hl
  obtain ⟨b, _, rfl⟩ := hl
  split at hcl
  · cases hcl
  · rw [List.mem_filterMap] at hcl
    obtain ⟨p, _, hf⟩ := hcl
    split at hf
    · cases hf; rfl
    · cases hf

theorem mem_newColumnsOf {c : Command} {ns os : List CollectionDefinition}
    (h : c ∈ newColumnsOf ns os) : c.isAddColumn = true ∨ c.isUpdateColumn = true := by
  unfold newColumnsOf at h
  rw [List.mem_flatten] at h
  obtain ⟨l, hl, hcl⟩ := h
  rw [List.mem_map] at hl
  obtain ⟨b, _, rfl⟩ := hl
  split at hcl
  · cases hcl
  · rw [List.mem_filterMap] at hcl
    obtain ⟨p, _, hf⟩ := hcl
    dsimp only at hf
    split at hf
    · cases hf; exact Or.inl rfl
    · split at hf
      · cases hf
      · cases hf; exact Or.inr rfl

theorem mem_newIndexesOf {c : Command} {ns os : List CollectionDefinition}
    (h : c ∈ newIndexesOf ns os) : c.isAddIndex = true ∨ c.isUpdateIndex = true := by
  unfold newIndexesOf at h
  rw [List.mem_flatten] at h
  obtain ⟨l, hl, hcl⟩ := h
  rw [List.mem_map] at hl
  obtain ⟨b, _, rfl⟩ := hl
  split at hcl
  · cases hcl
  · rw [List.mem_filterMap] at hcl
    obtain ⟨p, _, hf⟩ := hcl
    dsimp only at hf
    split at hf
    · cases hf; exact Or.inl rfl
    · split at hf
      · cases hf
      · cases hf; exact Or.inr rfl

theorem colEntries_keys (l : List CollectionDefinition) :
    (colEntries l).map Prod.fst = l.map (fun c => c.className) := by
  simp [colEntries, List.map_map]

theorem funcEntries_keys (l : List FunctionDefinition) :
    (funcEntries l).map Prod.fst = l.map (fun f => f.functionName) := by
  simp [funcEntries, List.map_map]

theorem trigEntries_keys (l : List TriggerDefinition) :
    (trigEntries l).map Prod.fst = l.map triggerKey := by
  simp [trigEntries, List.map_map]

theorem mem_colEntries {c : CollectionDefinition} {l : List CollectionDefinition}
    (h : c ∈ l) : (c.className, c) ∈ colEntries l :=
  List.mem_map.mpr ⟨c, h, rfl⟩

theorem newCollectionsOf_self (ns : List CollectionDefinition) :
    newCollectionsOf ns ns = [] := by
  unfold newCollectionsOf
  rw [List.filterMap_eq_nil_iff]
  intro c hc
  rw [jsMapGet_isSome_of_mem (colEntries ns) c.className c (mem_colEntries hc)]
  rfl

theorem deletedCollectionsOf_self (ns : List CollectionDefinition) :
    deletedCollectionsOf ns ns = [] := by
  unfold deletedCollectionsOf
  rw [List.filterMap_eq_nil_iff]
  intro c hc
  rw [jsMapGet_isSome_of_mem (colEntries ns) c.className c (mem_colEntries hc)]
  rfl

theorem jsMapGet_colEntries_self {ns : List CollectionDefinition}
    (hnd : (ns.map (fun c => c.className)).Nodup) {c : CollectionDefinition} (hc : c ∈ ns) :
    jsMapGet (colEntries ns) c.className = some c :=
  jsMapGet_eq (colEntries ns) c.className c (by rw [colEntries_keys]; exact hnd)
    (mem_colEntries hc)

theorem updatedPermissionsOf_self (ns : List CollectionDefinition)
    (hnd : (ns.map (fun c => c.className)).Nodup) : updatedPermissionsOf ns ns = [] := by
  unfold updatedPermissionsOf permCommand
  rw [List.filterMap_eq_nil_iff]
  intro c hc
  rw [jsMapGet_colEntries_self hnd hc]
  simp [deepEquals_self]

theorem objIdx_self_of_wf {l : List (String × JsVal)} (hwf : wfObj l) {p : String × JsVal}
    (hp : p ∈ l) : objIdx l p.1 = p.2 :=
  objIdx_eq l p.1 p.2 hwf.1 (by simpa using hp)

theorem newColumnsOf_self (ns : List CollectionDefinition)
    (hnd : (ns.map (fun c => c.className)).Nodup)
    (hwf : ∀ c ∈ ns, wfObj c.fields) : newColumnsOf ns ns = [] := by
  unfold newColumnsOf
  rw [List.flatten_eq_nil_iff]
  intro l hl
  rw [List.mem_map] at hl
  obtain ⟨c, hc, rfl⟩ := hl
  rw [jsMapGet_colEntries_self hnd hc]
  rw [List.filterMap_eq_nil_iff]
  intro p hp
  dsimp only
  rw [objIdx_self_of_wf (hwf c hc) hp]
  simp [(hwf c hc).2 p hp, deepEquals_self]

theorem deletedColumnsOf_self (ns : List CollectionDefinition)
    (hnd : (ns.map (fun c => c.className)).Nodup)
    (hwf : ∀ c ∈ ns, wfObj c.fields) : deletedColumnsOf ns ns = [] := by
  unfold deletedColumnsOf
  rw [List.flatten_eq_nil_iff]
  intro l hl
  rw [List.mem_map] at hl
  obtain ⟨c, hc, rfl⟩ := hl
  rw [jsMapGet_colEntries_self hnd hc]
  rw [List.filterMap_eq_nil_iff]
  intro p hp
  rw [objIdx_self_of_wf (hwf c hc) hp]
  simp [(hwf c hc).2 p hp]

theorem newIndexesOf_self (ns : List CollectionDefinition)
    (hnd : (ns.map (fun c => c.className)).Nodup)
    (hwf : ∀ c ∈ ns, wfObj (c.indexes.getD [])) : newIndexesOf ns ns = [] := by
  unfold newIndexesOf
  rw [List.flatten_eq_nil_iff]
  intro l hl
  rw [List.mem_map] at hl
  obtain ⟨c, hc, rfl⟩ := hl
  rw [jsMapGet_colEntries_self hnd hc]
  rw [List.filterMap_eq_nil_iff]
  intro p hp
  dsimp only
  rw [objIdx_self_of_wf (hwf c hc) hp]
  simp [(hwf c hc).2 p hp, deepEquals_self]

theorem deletedIndexesOf_self (ns : List CollectionDefinition) (ipi : Bool)
    (hnd : (ns.map (fun c => c.className)).Nodup)
    (hwf : ∀ c ∈ ns, wfObj (c.indexes.getD [])) : deletedIndexesOf ns ns ipi = [] := by
  unfold deletedIndexesOf
  rw [List.flatten_eq_nil_iff]
  intro l hl
  rw [List.mem_map] at hl
  obtain ⟨c, hc, rfl⟩ := hl
  rw [jsMapGet_colEntries_self hnd hc]
  rw [List.filterMap_eq_nil_iff]
  intro p hp
  split
  · rfl
  · rw [objIdx_self_of_wf (hwf c hc) hp]
    simp [(hwf c hc).2 p hp]

theorem planCollections_self (ns : List CollectionDefinition) (ipi : Bool)
    (hnd : (ns.map (fun c => c.className)).Nodup)
    (hwf : ∀ c ∈ ns, wfObj c.fields ∧ wfObj (c.indexes.getD [])) :
    planCollections ns ns ipi = [] := by
  unfold planCollections
  rw [newCollectionsOf_self, deletedCollectionsOf_self, updatedPermissionsOf_self ns hnd,
    deletedIndexesOf_self ns ipi hnd (fun c hc => (hwf c hc).2),
    deletedColumnsOf_self ns hnd (fun c hc => (hwf c hc).1),
    newColumnsOf_self ns hnd (fun c hc => (hwf c hc).1),
    newIndexesOf_self ns hnd (fun c hc => (hwf c hc).2)]
  rfl

theorem applyHookF_falsy {hookUrl : Option String} (hh : strTruthy hookUrl = false)
    (f : FunctionDefinition) : applyHookF hookUrl f = f := by
  simp [applyHookF, hh]

theorem applyHookT_falsy {hookUrl : Option String} (hh : strTruthy hookUrl = false)
    (t : TriggerDefinition) : applyHookT hookUrl t = t := by
  simp [applyHookT, hh]

theorem planFunctions_self (fs : List FunctionDefinition) (hookUrl : Option String)
    (hnd : (fs.map (fun f => f.functionName)).Nodup) (hh : strTruthy hookUrl = false) :
    planFunctions fs fs hookUrl = [] := by
  have h1 : deletedFunctionsOf fs fs = [] := by
    unfold deletedFunctionsOf
    rw [List.filterMap_eq_nil_iff]
    intro f hf
    rw [jsMapGet_isSome_of_mem (funcEntries fs) f.functionName f
      (List.mem_map.mpr ⟨f, hf, rfl⟩)]
    rfl
  have h2 : newFunctionsOf fs fs hookUrl = [] := by
    unfold newFunctionsOf
    rw [List.filterMap_eq_nil_iff]
    intro f hf
    dsimp only
    rw [applyHookF_falsy hh]
    rw [jsMapGet_eq (funcEntries fs) f.functionName f
      (by rw [funcEntries_keys]; exact hnd) (List.mem_map.mpr ⟨f, hf, rfl⟩)]
    simp
  unfold planFunctions
  rw [h1, h2]
  rfl

theorem planTriggers_self (ts : List TriggerDefinition) (hookUrl : Option String)
    (hnd : (ts.map triggerKey).Nodup) (hh : strTruthy hookUrl = false) :
    planTriggers ts ts hookUrl = [] := by
  have h1 : deletedTriggersOf ts ts = [] := by
    unfold deletedTriggersOf
    rw [List.filterMap_eq_nil_iff]
    intro t ht
    rw [jsMapGet_isSome_of_mem (trigEntries ts) (triggerKey t) t
      (List.mem_map.mpr ⟨t, ht, rfl⟩)]
    rfl
  have h2 : newTriggersOf ts ts hookUrl = [] := by
    unfold newTriggersOf
    rw [List.filterMap_eq_nil_iff]
    intro t ht
    dsimp only
    rw [applyHookT_falsy hh]
    rw [jsMapGet_eq (trigEntries ts) (triggerKey t) t
      (by rw [trigEntries_keys]; exact hnd) (List.mem_map.mpr ⟨t, ht, rfl⟩)]
    simp
  unfold planTriggers
  rw [h1, h2]
  rfl

/-- C1: for every pair of schema collection lists, planCollections returns
the concatenation, in this fixed order, of the AddCollection commands, the
DeleteCollection commands, the UpdateCollectionPermissions commands, the
DeleteIndex commands, the DeleteColumn commands, the AddColumn and
UpdateColumn commands, and the AddIndex and UpdateIndex commands. -/
theorem planCollections_fixed_order (ns os : List CollectionDefinition) (ipi : Bool) :
    ∃ l1 l2 l3 l4 l5 l6 l7 : List Command,
      planCollections ns os ipi = l1 ++ l2 ++ l3 ++ l4 ++ l5 ++ l6 ++ l7
        ∧ (∀ c ∈ l1, c.isAddCollection = true)
        ∧ (∀ c ∈ l2, c.isDeleteCollection = true)
        ∧ (∀ c ∈ l3, c.isUpdateCollectionPermissions = true)
        ∧ (∀ c ∈ l4, c.isDeleteIndex = true)
        ∧ (∀ c ∈ l5, c.isDeleteColumn = true)
        ∧ (∀ c ∈ l6, c.isAddColumn = true ∨ c.isUpdateColumn = true)
        ∧ (∀ c ∈ l7, c.isAddIndex = true ∨ c.isUpdateIndex = true) :=
  ⟨newCollectionsOf ns os, deletedCollectionsOf ns os, updatedPermissionsOf ns os,
    deletedIndexesOf ns os ipi, deletedColumnsOf ns os, newColumnsOf ns os, newIndexesOf ns os,
    rfl,
    fun _ h => mem_newCollectionsOf h,
    fun _ h => mem_deletedCollectionsOf h,
    fun _ h => mem_updatedPermissionsOf h,
    fun _ h => mem_deletedIndexesOf h,
    fun _ h => mem_deletedColumnsOf h,
    fun _ h => mem_newColumnsOf h,
    fun _ h => mem_newIndexesOf h⟩

/-- Fixed example collection with a field, an index and permissions. -/
def fooCollection : CollectionDefinition :=
  { className := "Foo",
    fields := [("objectId", .obj [("type", .str "String")])],
    indexes := some [("i1", .obj [("a", .num 1)])],
    classLevelPermissions := .obj [("find", .obj [])] }

/-- Fixed valid example schema with one collection (fields, an index and
permissions), one function and one trigger. -/
def exampleSchema : Schema :=
  { collections := [fooCollection],
    functions := [{ functionName := "f", url := "/f" }],
    triggers := [{ className := "Foo", triggerName := "beforeSave", url := "/t" }] }

/-- Valid schema holding a single remote function with a raw url. -/
def funcSchema : Schema :=
  { collections := [], functions := [{ functionName := "f", url := "/f" }], triggers := [] }

/-- Trigger named a on class b-c. -/
def collidingTriggerA : TriggerDefinition :=
  { className := "b-c", triggerName := "a", url := "/u1" }

/-- Trigger named a-b on class c: a different pair identity than
collidingTriggerA, but the same concatenated key a-b-c. -/
def collidingTriggerB : TriggerDefinition :=
  { className := "c", triggerName := "a-b", url := "/u2" }

/-- Schema whose two triggers have distinct pair identities but colliding
concatenated trigger keys; it is valid in the spec's sense. -/
def trigSchema : Schema :=
  { collections := [], functions := [],
    triggers := [collidingTriggerA, collidingTriggerB] }

/-- C2 (amended): plan(S, S, hookUrl) is the empty command list for every
valid schema S when the hookUrl argument is falsy (null or the empty
string, so the URL rewrite is skipped) and, in addition, no two triggers
of S share the concatenated key triggerName-className; with a non-empty
hookUrl, or with distinct triggers whose concatenated keys collide, the
self-plan can be non-empty. -/
theorem plan_self_empty (s : Schema) (hookUrl : Option String)
    (hv : validSchema s) (hk : (s.triggers.map triggerKey).Nodup)
    (hh : hookUrl = none ∨ hookUrl = some "") :
    plan s s hookUrl false = [] := by
  obtain ⟨h1, h2, _, h4⟩ := hv
  have hts : strTruthy hookUrl = false := by rcases hh with rfl | rfl <;> rfl
  unfold plan
  rw [planCollections_self s.collections false h1 h4,
    planFunctions_self s.functions hookUrl h2 hts,
    planTriggers_self s.triggers hookUrl hk hts]
  rfl

/-- Witness for the amended C2 theorem at a concrete valid schema. -/
theorem plan_self_empty_witness : plan exampleSchema exampleSchema none false = [] :=
  plan_self_empty exampleSchema none (by decide) (by decide) (Or.inl rfl)

/-- C2 counterexample, in two parts. First, with a non-empty hookUrl
prefix, plan(S, S, hookUrl) is NOT empty for the valid schema holding one
function, because the rewrite is applied to the desired url only and the
comparison of /f against /hooks/f then fails, emitting an UpdateFunction.
Second, even with a null hookUrl, the valid schema trigSchema — its two
triggers have distinct pair identities (triggerName, className) but the
same concatenated key a-b-c — yields a non-empty self-plan: the last-wins
trigger map resolves the shared key to the second trigger, whose url
differs, so an UpdateTrigger is emitted. -/
theorem plan_self_not_empty :
    (validSchema funcSchema ∧ plan funcSchema funcSchema (some "/hooks") false ≠ [])
    ∧ (validSchema trigSchema ∧ plan trigSchema trigSchema none false ≠ []) := by
  refine ⟨⟨by decide, ?_⟩, ⟨by decide, ?_⟩⟩
  · have he : plan funcSchema funcSchema (some "/hooks") false
        = [Command.UpdateFunction { functionName := "f", url := "/hooks/f" }] := rfl
    rw [he]
    exact List.cons_ne_nil _ _
  · have he : plan trigSchema trigSchema none false
        = [Command.UpdateTrigger collidingTriggerA] := rfl
    rw [he]
    exact List.cons_ne_nil _ _

/-- Specification-style restatement of the equality the code implements:
two values are equal when both are undefined, or when neither is undefined
and their key-order-SENSITIVE JSON.stringify serializations coincide. -/
def serializationEquals (a b : JsVal) : Prop :=
  (isUndef a = true ∧ isUndef b = true)
    ∨ (isUndef a = false ∧ isUndef b = false ∧ stringifyVal a = stringifyVal b)

theorem isUndef_undef : isUndef .undef = true := rfl

/-- C3 (amended): deepEquals compares two structured values as equal exactly
when both are undefined or when neither is and their key-order-sensitive
JSON serializations are identical; undefined compares equal only to
undefined, and never to an empty object or an empty array. -/
theorem deepEquals_characterization (a b : JsVal) :
    (deepEquals a b = true ↔ serializationEquals a b)
    ∧ deepEquals .undef (.obj []) = false
    ∧ deepEquals .undef (.arr []) = false
    ∧ (∀ v, deepEquals .undef v = true ↔ isUndef v = true) := by
  refine ⟨?_, rfl, rfl, fun v => by
    cases hv : isUndef v <;> simp [deepEquals, isUndef_undef, hv]⟩
  unfold deepEquals serializationEquals
  cases ha : isUndef a <;> cases hb : isUndef b <;> simp [ha, hb]

/-- C3 counterexample: two objects holding the same key-value pairs in
different key orders (a permutation of one another) compare UNEQUAL under
deepEquals, because JSON.stringify preserves insertion order of keys — the
comparison is not canonical or key-order-independent. -/
theorem deepEquals_key_order_sensitive :
    List.Perm [(("a" : String), JsVal.num 1), ("b", JsVal.num 2)]
      [("b", JsVal.num 2), ("a", JsVal.num 1)]
    ∧ deepEquals (.obj [("a", .num 1), ("b", .num 2)])
        (.obj [("b", .num 2), ("a", .num 1)]) = false :=
  ⟨List.Perm.swap _ _ _, rfl⟩

/-- Tests whether a command is an UpdateCollectionPermissions for the given
class name. -/
def isUCPFor (cn : String) : Command → Bool
  | .UpdateCollectionPermissions n _ _ => n == cn
  | _ => false

theorem isUCPFor_false_of_not_ucp {x : Command} (cn : String)
    (h : x.isUpdateCollectionPermissions = false) : isUCPFor cn x = false := by
  cases x <;> simp_all [Command.isUpdateCollectionPermissions, isUCPFor]

theorem not_ucp_of_isAddCollection {x : Command} (h : x.isAddCollection = true) :
    x.isUpdateCollectionPermissions = false := by
  cases x <;> simp_all [Command.isAddCollection, Command.isUpdateCollectionPermissions]

theorem not_ucp_of_isDeleteCollection {x : Command} (h : x.isDeleteCollection = true) :
    x.isUpdateCollectionPermissions = false := by
  cases x <;> simp_all [Command.isDeleteCollection, Command.isUpdateCollectionPermissions]

theorem not_ucp_of_isDeleteIndex {x : Command} (h : x.isDeleteIndex = true) :
    x.isUpdateCollectionPermissions = false := by
  cases x <;> simp_all [Command.isDeleteIndex, Command.isUpdateCollectionPermissions]

theorem not_ucp_of_isDeleteColumn {x : Command} (h : x.isDeleteColumn = true) :
    x.isUpdateCollectionPermissions = false := by
  cases x <;> simp_all [Command.isDeleteColumn, Command.isUpdateCollectionPermissions]

theorem not_ucp_of_column {x : Command} (h : x.isAddColumn = true ∨ x.isUpdateColumn = true) :
    x.isUpdateCollectionPermissions = false := by
  rcases h with h | h <;> cases x <;>
    simp_all [Command.isAddColumn, Command.isUpdateColumn,
      Command.isUpdateCollectionPermissions]

theorem not_ucp_of_index {x : Command} (h : x.isAddIndex = true ∨ x.isUpdateIndex = true) :
    x.isUpdateCollectionPermissions = false := by
  rcases h with h | h <;> cases x <;>
    simp_all [Command.isAddIndex, Command.isUpdateIndex,
      Command.isUpdateCollectionPermissions]

theorem filter_isUCPFor_updatedPermissionsOf (l os : List CollectionDefinition) (cn : String)
    (h : ∀ x ∈ l, x.className ≠ cn) :
    (updatedPermissionsOf l os).filter (isUCPFor cn) = [] := by
  rw [List.filter_eq_nil_iff]
  intro a ha
  unfold updatedPermissionsOf permCommand at ha
  rw [List.mem_filterMap] at ha
  obtain ⟨x, hx, hf⟩ := ha
  split at hf
  · cases hf
  · split at hf
    · cases hf
    · cases hf
      simp [isUCPFor, h x hx]

/-- C4 (amended): for a collection present in both schemas whose
classLevelPermissions differ under deepEquals (a plain key-order-sensitive
deep comparison with no ignore-set of permission-action names, so any
differing key, including a server-added default, triggers the mismatch),
planCollections emits exactly one UpdateCollectionPermissions command for
that class, and it carries the class name and the new permission map — the
old-permissions slot is left undefined rather than carrying the old map. -/
theorem updatedPermissions_exactly_one (ns os : List CollectionDefinition) (ipi : Bool)
    (c old : CollectionDefinition)
    (hnd : (ns.map (fun x => x.className)).Nodup)
    (hc : c ∈ ns)
    (hold : jsMapGet (colEntries os) c.className = some old)
    (hne : deepEquals c.classLevelPermissions old.classLevelPermissions = false) :
    (planCollections ns os ipi).filter (isUCPFor c.className)
      = [.UpdateCollectionPermissions c.className c.classLevelPermissions .undef] := by
  obtain ⟨l1, l2, rfl⟩ := List.append_of_mem hc
  have hmap := hnd
  rw [List.map_append, List.map_cons, List.nodup_append] at hmap
  obtain ⟨hn1, hn2, hdisj⟩ := hmap
  have hl1 : ∀ x ∈ l1, x.className ≠ c.className := by
    intro x hx he
    exact hdisj (he ▸ List.mem_map.mpr ⟨x, hx, rfl⟩) (List.mem_cons_self _ _)
  have hl2 : ∀ x ∈ l2, x.className ≠ c.className := by
    intro x hx he
    exact (List.nodup_cons.mp hn2).1 (he ▸ List.mem_map.mpr ⟨x, hx, rfl⟩)
  have s1 : (newCollectionsOf (l1 ++ c :: l2) os).filter (isUCPFor c.className) = [] :=
    List.filter_eq_nil_iff.mpr (fun x hx => by
      simp [isUCPFor_false_of_not_ucp _ (not_ucp_of_isAddCollection (mem_newCollectionsOf hx))])
  have s2 : (deletedCollectionsOf (l1 ++ c :: l2) os).filter (isUCPFor c.className) = [] :=
    List.filter_eq_nil_iff.mpr (fun x hx => by
      simp [isUCPFor_false_of_not_ucp _
        (not_ucp_of_isDeleteCollection (mem_deletedCollectionsOf hx))])
  have s4 : (deletedIndexesOf (l1 ++ c :: l2) os ipi).filter (isUCPFor c.className) = [] :=
    List.filter_eq_nil_iff.mpr (fun x hx => by
      simp [isUCPFor_false_of_not_ucp _ (not_ucp_of_isDeleteIndex (mem_deletedIndexesOf hx))])
  have s5 : (deletedColumnsOf (l1 ++ c :: l2) os).filter (isUCPFor c.className) = [] :=
    List.filter_eq_nil_iff.mpr (fun x hx => by
      simp [isUCPFor_false_of_not_ucp _ (not_ucp_of_isDeleteColumn (mem_deletedColumnsOf hx))])
  have s6 : (newColumnsOf (l1 ++ c :: l2) os).filter (isUCPFor c.className) = [] :=
    List.filter_eq_nil_iff.mpr (fun x hx => by
      simp [isUCPFor_false_of_not_ucp _ (not_ucp_of_column (mem_newColumnsOf hx))])
  have s7 : (newIndexesOf (l1 ++ c :: l2) os).filter (isUCPFor c.className) = [] :=
    List.filter_eq_nil_iff.mpr (fun x hx => by
      simp [isUCPFor_false_of_not_ucp _ (not_ucp_of_index (mem_newIndexesOf hx))])
  have hfc : permCommand os c
      = some (.UpdateCollectionPermissions c.className c.classLevelPermissions .undef) := by
    unfold permCommand
    rw [hold]
    simp [hne]
  have s3 : (updatedPermissionsOf (l1 ++ c :: l2) os).filter (isUCPFor c.className)
      = [.UpdateCollectionPermissions c.className c.classLevelPermissions .undef] := by
    unfold updatedPermissionsOf
    rw [List.filterMap_append, List.filterMap_cons, hfc]
    rw [List.filter_append, List.filter_cons]
    have h1 := filter_isUCPFor_updatedPermissionsOf l1 os c.className hl1
    have h2 := filter_isUCPFor_updatedPermissionsOf l2 os c.className hl2
    unfold updatedPermissionsOf at h1 h2
    rw [h1, h2]
    simp [isUCPFor]
  unfold planCollections
  rw [List.filter_append, List.filter_append, List.filter_append, List.filter_append,
    List.filter_append, List.filter_append]
  rw [s1, s2, s3, s4, s5, s6, s7]
  rfl

/-- Desired collection for exercising the permission comparison. -/
def permNewCol : CollectionDefinition :=
  { className := "Foo", fields := [], indexes := none,
    classLevelPermissions := .obj [("find", .obj [])] }

/-- Observed collection equal to permNewCol except for a server-added
addField default permission key. -/
def permOldCol : CollectionDefinition :=
  { className := "Foo", fields := [], indexes := none,
    classLevelPermissions := .obj [("find", .obj []), ("addField", .obj [])] }

/-- Witness for the amended C4 theorem at concrete collections. -/
theorem updatedPermissions_exactly_one_witness :
    (planCollections [permNewCol] [permOldCol] false).filter (isUCPFor permNewCol.className)
      = [.UpdateCollectionPermissions permNewCol.className
          permNewCol.classLevelPermissions .undef] :=
  updatedPermissions_exactly_one [permNewCol] [permOldCol] false permNewCol permOldCol
    (by decide) (List.Mem.head _) rfl rfl

/-- C4 counterexample: a server-added default permission key (addField),
absent from the desired schema, triggers an UpdateCollectionPermissions by
itself — no ignore-set of permission-action names is excluded from the
comparison — and the emitted command does not carry the old permission
map: its oldPerms slot is the undefined value, which differs from the
observed permission map. -/
theorem updatedPermissions_counterexample :
    planCollections [permNewCol] [permOldCol] false
      = [.UpdateCollectionPermissions "Foo" (.obj [("find", .obj [])]) .undef]
    ∧ JsVal.undef ≠ permOldCol.classLevelPermissions :=
  ⟨rfl, fun h => JsVal.noConfusion h⟩

/-- Schema with no collections, functions or triggers. -/
def emptySchema : Schema := { collections := [], functions := [], triggers := [] }

/-- Options with every flag cleared and no hook URL. -/
def defaultOpts : Options :=
  { hookUrl := none, ignoreIndexes := false,
    disallowColumnRedefine := false, disallowIndexRedefine := false }

/-- Options with only disallowColumnRedefine set. -/
def disallowColOpts : Options :=
  { hookUrl := none, ignoreIndexes := false,
    disallowColumnRedefine := true, disallowIndexRedefine := false }

/-- Schema holding the single new collection permNewCol. -/
def oneCollectionSchema : Schema :=
  { collections := [permNewCol], functions := [], triggers := [] }

/-- C5: with disallowColumnRedefine set, getPlan raises
DisallowedCommandError even on a plan that contains no UpdateColumn or
DeleteColumn command — here the plan is the single AddCollection produced
for a new collection, and the guard condition of actions.js lines 66-67
(type differs from UpdateColumn OR type differs from DeleteColumn) accepts
it and throws, where the claim requires the plan to be returned. -/
theorem disallow_guard_rejects_add_collection :
    plan oneCollectionSchema emptySchema none false = [.AddCollection permNewCol]
    ∧ getPlanCommands oneCollectionSchema emptySchema disallowColOpts
        = .error (.AddCollection permNewCol) :=
  ⟨rfl, rfl⟩

/-- C6: whenever getPlan computes a command list, check succeeds exactly
when that list is empty, otherwise it raises OutOfSyncError carrying the
full list; the remote (observed schema) is unchanged by the call. -/
theorem check_drift (n o : Schema) (opts : Options) (cs : List Command)
    (h : getPlanCommands n o opts = .ok cs) :
    (check n o opts = .ok () ↔ cs = [])
    ∧ (cs ≠ [] → check n o opts = .error (.outOfSync cs))
    ∧ (checkEffect n o opts).2 = o := by
  refine ⟨?_, ?_, rfl⟩ <;> unfold check <;> rw [h]
  · cases cs <;> simp
  · cases cs <;> simp

/-- Witness for the C6 theorem at a concrete empty plan. -/
theorem check_drift_witness :
    (check emptySchema emptySchema defaultOpts = .ok () ↔ ([] : List Command) = [])
    ∧ (([] : List Command) ≠ []
        → check emptySchema emptySchema defaultOpts = .error (.outOfSync []))
    ∧ (checkEffect emptySchema emptySchema defaultOpts).2 = emptySchema :=
  check_drift emptySchema emptySchema defaultOpts [] rfl

theorem ctype_strip (c : Command) :
    (stripAddCollectionIndexes c).ctype = c.ctype := by
  cases c <;> rfl

theorem isAddIndex_eq (c : Command) : c.isAddIndex = (c.ctype == "AddIndex") := by
  cases c <;> rfl

theorem isUpdateIndex_eq (c : Command) : c.isUpdateIndex = (c.ctype == "UpdateIndex") := by
  cases c <;> rfl

theorem isDeleteIndex_eq (c : Command) : c.isDeleteIndex = (c.ctype == "DeleteIndex") := by
  cases c <;> rfl

theorem getPlanCommands_ok_ignoreIndexes {n o : Schema} {opts : Options} {cs : List Command}
    (hig : opts.ignoreIndexes = true) (h : getPlanCommands n o opts = .ok cs) :
    cs = ((plan n o opts.hookUrl false).filter keepNonIndex).map stripAddCollectionIndexes := by
  unfold getPlanCommands at h
  rw [hig] at h
  simp only [if_true] at h
  split at h
  · cases h
  · split at h
    · cases h
    · exact (Except.ok.inj h).symm

/-- C7: with ignoreIndexes set, a command list returned by getPlan contains
no AddIndex, UpdateIndex or DeleteIndex command, and every surviving
AddCollection command carries an empty indexes map in its payload. -/
theorem ignoreIndexes_strips (n o : Schema) (opts : Options) (cs : List Command)
    (hig : opts.ignoreIndexes = true) (h : getPlanCommands n o opts = .ok cs) :
    (∀ c ∈ cs, c.isAddIndex = false ∧ c.isUpdateIndex = false ∧ c.isDeleteIndex = false)
    ∧ (∀ d, Command.AddCollection d ∈ cs → d.indexes = some []) := by
  have hcs := getPlanCommands_ok_ignoreIndexes hig h
  subst hcs
  constructor
  · intro c hc
    rw [List.mem_map] at hc
    obtain ⟨x, hx, rfl⟩ := hc
    rw [List.mem_filter] at hx
    have hkeep := hx.2
    unfold keepNonIndex at hkeep
    rw [Bool.and_eq_true, Bool.and_eq_true] at hkeep
    obtain ⟨⟨h1, h2⟩, h3⟩ := hkeep
    rw [isAddIndex_eq, isUpdateIndex_eq, isDeleteIndex_eq, ctype_strip]
    refine ⟨?_, ?_, ?_⟩
    · rw [← Bool.not_eq_true]
      intro he
      rw [bne_iff_ne] at h1
      exact h1 (by simpa using he)
    · rw [← Bool.not_eq_true]
      intro he
      rw [bne_iff_ne] at h2
      exact h2 (by simpa using he)
    · rw [← Bool.not_eq_true]
      intro he
      rw [bne_iff_ne] at h3
      exact h3 (by simpa using he)
  · intro d hd
    rw [List.mem_map] at hd
    obtain ⟨x, _, hstrip⟩ := hd
    cases x <;> simp [stripAddCollectionIndexes] at hstrip
    rw [← hstrip]

/-- Options with only ignoreIndexes set. -/
def ignoreIdxOpts : Options :=
  { hookUrl := none, ignoreIndexes := true,
    disallowColumnRedefine := false, disallowIndexRedefine := false }

/-- Collection fooCollection with its indexes map emptied. -/
def fooCollectionStripped : CollectionDefinition :=
  { className := "Foo",
    fields := [("objectId", .obj [("type", .str "String")])],
    indexes := some [],
    classLevelPermissions := .obj [("find", .obj [])] }

/-- Concrete command list produced by getPlan for exampleSchema against an
empty remote with ignoreIndexes set: the AddCollection payload has had its
indexes map emptied. -/
def strippedCmds : List Command :=
  [.AddCollection fooCollectionStripped,
   .AddFunction { functionName := "f", url := "/f" },
   .AddTrigger { className := "Foo", triggerName := "beforeSave", url := "/t" }]

/-- Witness for the C7 theorem at a concrete schema whose new collection
declares an index. -/
theorem ignoreIndexes_strips_witness :
    (∀ c ∈ strippedCmds,
      c.isAddIndex = false ∧ c.isUpdateIndex = false ∧ c.isDeleteIndex = false)
    ∧ (∀ d, Command.AddCollection d ∈ strippedCmds → d.indexes = some []) :=
  ignoreIndexes_strips exampleSchema emptySchema ignoreIdxOpts strippedCmds rfl rfl

theorem append_ne_self {h : String} (u : String) (hne : h ≠ "") : h ++ u ≠ u := by
  intro heq
  have hl := congrArg String.length heq
  rw [String.length_append] at hl
  have h0 : h.length = 0 := by omega
  apply hne
  cases h with
  | mk data => simp [String.length] at h0; simp [h0]

theorem applyHookF_some {h : String} (hne : h ≠ "") (g : FunctionDefinition) :
    applyHookF (some h) g = { g with url := h ++ g.url } := by
  have ht : strTruthy (some h) = true := by simp [strTruthy, hne]
  simp [applyHookF, ht]

theorem applyHookT_some {h : String} (hne : h ≠ "") (g : TriggerDefinition) :
    applyHookT (some h) g = { g with url := h ++ g.url } := by
  have ht : strTruthy (some h) = true := by simp [strTruthy, hne]
  simp [applyHookT, ht]

theorem mem_deletedFunctionsOf {c : Command} {ns os : List FunctionDefinition}
    (h : c ∈ deletedFunctionsOf ns os) : ∃ fn, c = .DeleteFunction fn := by
  unfold deletedFunctionsOf at h
  rw [List.mem_filterMap] at h
  obtain ⟨f, _, hf⟩ := h
  split at hf
  · cases hf
  · cases hf
    exact ⟨f.functionName, rfl⟩

theorem mem_deletedTriggersOf {c : Command} {ns os : List TriggerDefinition}
    (h : c ∈ deletedTriggersOf ns os) : ∃ cn tn, c = .DeleteTrigger cn tn := by
  unfold deletedTriggersOf at h
  rw [List.mem_filterMap] at h
  obtain ⟨t, _, hf⟩ := h
  split at hf
  · cases hf
  · cases hf
    exact ⟨t.className, t.triggerName, rfl⟩

/-- C8: with a non-empty hookUrl prefix, every AddFunction or
UpdateFunction command emitted by planFunctions carries the rewrite
hookUrl + url of some desired entry — never the raw url, which the
rewritten url always differs from — and an UpdateFunction is only emitted
when the observed entry's url differs from the rewritten url; the same
holds for AddTrigger and UpdateTrigger commands of planTriggers. -/
theorem hookUrl_rewrite (ns os : List FunctionDefinition) (ts tos : List TriggerDefinition)
    (h : String) (hne : h ≠ "") :
    (∀ f : FunctionDefinition,
        (Command.AddFunction f ∈ planFunctions ns os (some h)
          ∨ Command.UpdateFunction f ∈ planFunctions ns os (some h)) →
        ∃ g, g ∈ ns ∧ f = { g with url := h ++ g.url } ∧ f.url ≠ g.url)
    ∧ (∀ f oldF, Command.UpdateFunction f ∈ planFunctions ns os (some h) →
        jsMapGet (funcEntries os) f.functionName = some oldF → oldF.url ≠ f.url)
    ∧ (∀ t : TriggerDefinition,
        (Command.AddTrigger t ∈ planTriggers ts tos (some h)
          ∨ Command.UpdateTrigger t ∈ planTriggers ts tos (some h)) →
        ∃ g, g ∈ ts ∧ t = { g with url := h ++ g.url } ∧ t.url ≠ g.url)
    ∧ (∀ t oldT, Command.UpdateTrigger t ∈ planTriggers ts tos (some h) →
        jsMapGet (trigEntries tos) (triggerKey t) = some oldT → oldT.url ≠ t.url) := by
  have hmemF : ∀ (cmd : Command), cmd ∈ planFunctions ns os (some h) →
      (∃ fn, cmd = .DeleteFunction fn) ∨ cmd ∈ newFunctionsOf ns os (some h) := by
    intro cmd hc
    unfold planFunctions at hc
    rcases List.mem_append.mp hc with hc | hc
    · exact Or.inl (mem_deletedFunctionsOf hc)
    · exact Or.inr hc
  have hmemT : ∀ (cmd : Command), cmd ∈ planTriggers ts tos (some h) →
      (∃ cn tn, cmd = .DeleteTrigger cn tn) ∨ cmd ∈ newTriggersOf ts tos (some h) := by
    intro cmd hc
    unfold planTriggers at hc
    rcases List.mem_append.mp hc with hc | hc
    · exact Or.inl (mem_deletedTriggersOf hc)
    · exact Or.inr hc
  refine ⟨?_, ?_, ?_, ?_⟩
  · intro f hf
    have hnew : ∃ cmd, (cmd = Command.AddFunction f ∨ cmd = Command.UpdateFunction f)
        ∧ cmd ∈ newFunctionsOf ns os (some h) := by
      rcases hf with hf | hf
      · rcases hmemF _ hf with ⟨fn, he⟩ | hm
        · cases he
        · exact ⟨_, Or.inl rfl, hm⟩
      · rcases hmemF _ hf with ⟨fn, he⟩ | hm
        · cases he
        · exact ⟨_, Or.inr rfl, hm⟩
    obtain ⟨cmd, hcmd, hm⟩ := hnew
    unfold newFunctionsOf at hm
    rw [List.mem_filterMap] at hm
    obtain ⟨g, hg, hfg⟩ := hm
    rw [applyHookF_some hne] at hfg
    dsimp only at hfg
    have hfeq : f = { g with url := h ++ g.url } := by
      split at hfg
      · cases hfg
        rcases hcmd with hc | hc
        · exact (Command.AddFunction.inj hc.symm)
        · cases hc
      · split at hfg
        · cases hfg
          rcases hcmd with hc | hc
          · cases hc
          · exact (Command.UpdateFunction.inj hc.symm)
        · cases hfg
    refine ⟨g, hg, hfeq, ?_⟩
    rw [hfeq]
    exact append_ne_self g.url hne
  · intro f oldF hf hlook
    rcases hmemF _ hf with ⟨fn, he⟩ | hm
    · cases he
    · unfold newFunctionsOf at hm
      rw [List.mem_filterMap] at hm
      obtain ⟨g, hg, hfg⟩ := hm
      rw [applyHookF_some hne] at hfg
      dsimp only at hfg
      split at hfg
      · cases hfg
      · rename_i oldG hlk
        split at hfg
        · rename_i hurl
          cases hfg
          rw [bne_iff_ne] at hurl
          have : oldF = oldG := by
            rw [hlk] at hlook
            exact (Option.some.inj hlook).symm
          rw [this]
          exact hurl
        · cases hfg
  · intro t ht
    have hnew : ∃ cmd, (cmd = Command.AddTrigger t ∨ cmd = Command.UpdateTrigger t)
        ∧ cmd ∈ newTriggersOf ts tos (some h) := by
      rcases ht with ht | ht
      · rcases hmemT _ ht with ⟨cn, tn, he⟩ | hm
        · cases he
        · exact ⟨_, Or.inl rfl, hm⟩
      · rcases hmemT _ ht with ⟨cn, tn, he⟩ | hm
        · cases he
        · exact ⟨_, Or.inr rfl, hm⟩
    obtain ⟨cmd, hcmd, hm⟩ := hnew
    unfold newTriggersOf at hm
    rw [List.mem_filterMap] at hm
    obtain ⟨g, hg, hfg⟩ := hm
    rw [applyHookT_some hne] at hfg
    dsimp only at hfg
    have hteq : t = { g with url := h ++ g.url } := by
      split at hfg
      · cases hfg
        rcases hcmd with hc | hc
        · exact (Command.AddTrigger.inj hc.symm)
        · cases hc
      · split at hfg
        · cases hfg
          rcases hcmd with hc | hc
          · cases hc
          · exact (Command.UpdateTrigger.inj hc.symm)
        · cases hfg
    refine ⟨g, hg, hteq, ?_⟩
    rw [hteq]
    exact append_ne_self g.url hne
  · intro t oldT ht hlook
    rcases hmemT _ ht with ⟨cn, tn, he⟩ | hm
    · cases he
    · unfold newTriggersOf at hm
      rw [List.mem_filterMap] at hm
      obtain ⟨g, hg, hfg⟩ := hm
      rw [applyHookT_some hne] at hfg
      dsimp only at hfg
      split at hfg
      · cases hfg
      · rename_i oldG hlk
        split at hfg
        · rename_i hurl
          cases hfg
          rw [bne_iff_ne] at hurl
          have : oldT = oldG := by
            rw [hlk] at hlook
            exact (Option.some.inj hlook).symm
          rw [this]
          exact hurl
        · cases hfg

/-- Concrete function entry with a raw url. -/
def fnW : FunctionDefinition := { functionName := "f", url := "/f" }

/-- Concrete trigger entry with a raw url. -/
def trW : TriggerDefinition := { className := "C", triggerName := "beforeSave", url := "/t" }

/-- Witness for the C8 theorem at concrete schedules and the non-empty
prefix /hooks. -/
theorem hookUrl_rewrite_witness :
    (∀ f : FunctionDefinition,
        (Command.AddFunction f ∈ planFunctions [fnW] [] (some "/hooks")
          ∨ Command.UpdateFunction f ∈ planFunctions [fnW] [] (some "/hooks")) →
        ∃ g, g ∈ [fnW] ∧ f = { g with url := "/hooks" ++ g.url } ∧ f.url ≠ g.url)
    ∧ (∀ f oldF, Command.UpdateFunction f ∈ planFunctions [fnW] [] (some "/hooks") →
        jsMapGet (funcEntries []) f.functionName = some oldF → oldF.url ≠ f.url)
    ∧ (∀ t : TriggerDefinition,
        (Command.AddTrigger t ∈ planTriggers [trW] [] (some "/hooks")
          ∨ Command.UpdateTrigger t ∈ planTriggers [trW] [] (some "/hooks")) →
        ∃ g, g ∈ [trW] ∧ t = { g with url := "/hooks" ++ g.url } ∧ t.url ≠ g.url)
    ∧ (∀ t oldT, Command.UpdateTrigger t ∈ planTriggers [trW] [] (some "/hooks") →
        jsMapGet (trigEntries []) (triggerKey t) = some oldT → oldT.url ≠ t.url) :=
  hookUrl_rewrite [fnW] [] [trW] [] "/hooks" (by decide)

/-- C9 (amended): the planner itself is pure, getPlan leaves the observed
schema unchanged, and it leaves the desired schema unchanged whenever
ignoreIndexes is not set; with ignoreIndexes set the index-stripping loop
mutates the caller's desired schema through the aliased AddCollection
payloads. -/
theorem getPlan_no_mutation (n o : Schema) (opts : Options)
    (h : opts.ignoreIndexes = false) :
    (getPlanEffect n o opts).2.1 = n ∧ (getPlanEffect n o opts).2.2 = o := by
  unfold getPlanEffect getPlanPostDesired
  rw [h]
  exact ⟨by simp, rfl⟩

/-- Witness for the amended C9 theorem at concrete schemas. -/
theorem getPlan_no_mutation_witness :
    (getPlanEffect exampleSchema emptySchema defaultOpts).2.1 = exampleSchema
    ∧ (getPlanEffect exampleSchema emptySchema defaultOpts).2.2 = emptySchema :=
  getPlan_no_mutation exampleSchema emptySchema defaultOpts rfl

/-- C9 counterexample: with ignoreIndexes set, getPlan mutates the
caller's desired schema in place — after the call, the collection that
produced an AddCollection command has an empty indexes map where the
caller had declared the index i1. -/
theorem getPlan_mutates_desired :
    (getPlanEffect exampleSchema emptySchema ignoreIdxOpts).2.1 ≠ exampleSchema := by
  intro he
  have h2 : (some [] : Option (List (String × JsVal)))
      = some [("i1", JsVal.obj [("a", JsVal.num 1)])] :=
    congrArg (fun s => (s.collections.headD fooCollection).indexes) he
  exact List.noConfusion (Option.some.inj h2)

/-- Desired trigger named a on class b-c. -/
def trigD : TriggerDefinition := { className := "b-c", triggerName := "a", url := "/u1" }

/-- Observed trigger named a-b on class c, a different entity sharing the
concatenated key a-b-c with trigD. -/
def trigO : TriggerDefinition := { className := "c", triggerName := "a-b", url := "/u2" }

/-- Observed trigger a-b on class c whose url matches trigD. -/
def trigO2 : TriggerDefinition := { className := "c", triggerName := "a-b", url := "/u1" }

/-- C10: trigger identity is the concatenation triggerName-className, so
the distinct desired trigger (a, b-c) and observed trigger (a-b, c) share
the key a-b-c and are conflated: planTriggers emits no AddTrigger for the
desired trigger and no DeleteTrigger for the observed one, emitting
exactly an UpdateTrigger when their urls differ and nothing at all when
the urls coincide. -/
theorem triggerKey_conflation :
    triggerKey trigD = triggerKey trigO
    ∧ (trigD.triggerName, trigD.className) ≠ (trigO.triggerName, trigO.className)
    ∧ planTriggers [trigD] [trigO] none = [.UpdateTrigger trigD]
    ∧ planTriggers [trigD] [trigO2] none = [] :=
  ⟨rfl, by decide, rfl, rfl⟩

end ParseConfig
